import Mathlib

/-!
Verification of `wagtail/wagtailsearch/index.py` (declarative search-indexing
metadata layer): class-hierarchy content types, search-field deduplication,
attribute-path resolution, field descriptors, and the save/delete synchronizer
with per-backend failure isolation.

The Python code is shallowly embedded: model classes become an inductive tree
of class records, Python `dict` insertion becomes an ordered association list
with in-place replacement, fallible Python operations return `Except` values
(an uncaught exception is an `Except.error`), and the synchronizer produces an
explicit trace of the backend calls it makes.
-/

/-! ## Model classes and the content-type hierarchy

Embeds the `Indexed` classmethods `indexed_get_parent`,
`indexed_get_content_type` and `indexed_get_toplevel_content_type`.
A class record carries `_meta.app_label`, `__name__`, `__bases__` (in
declaration order) and the facts needed by the code's `issubclass` tests:
whether it inherits `Indexed`, whether it inherits `models.Model`, and
whether `_meta.abstract` is set. -/

inductive MClass where
  | mk (app_label : String) (name : String) (bases : List MClass)
       (isIndexed : Bool) (isModel : Bool) (isAbstract : Bool)

def MClass.app_label : MClass → String
  | .mk a _ _ _ _ _ => a

def MClass.name : MClass → String
  | .mk _ n _ _ _ _ => n

def MClass.bases : MClass → List MClass
  | .mk _ _ b _ _ _ => b

def MClass.isIndexed : MClass → Bool
  | .mk _ _ _ i _ _ => i

def MClass.isModel : MClass → Bool
  | .mk _ _ _ _ m _ => m

def MClass.isAbstract : MClass → Bool
  | .mk _ _ _ _ _ a => a

/-- `Indexed.indexed_get_parent(cls, require_model=True)`: return the first
direct base that subclasses `Indexed` and (unless `require_model` is false)
subclasses `models.Model`. -/
def indexed_get_parent (cls : MClass) (require_model : Bool) : Option MClass :=
  cls.bases.find? (fun base => base.isIndexed && (base.isModel || !require_model))

/-- The local content type `(cls._meta.app_label + '_' + cls.__name__).lower()`. -/
def local_content_type (cls : MClass) : String :=
  (cls.app_label ++ "_" ++ cls.name).toLower

mutual

/-- Structural size of a class record, used as recursion fuel below. -/
def MClass.csize : MClass → Nat
  | .mk _ _ bases _ _ _ => 1 + csizeList bases

def csizeList : List MClass → Nat
  | [] => 0
  | c :: cs => MClass.csize c + csizeList cs

end

/-- Fuel-indexed helper for `indexed_get_content_type`; the fuel only serves
termination, and `content_type_eq` below shows the function satisfies the
source's recursion whenever the fuel bounds the class-tree size. -/
def contentTypeFuel : Nat → MClass → String
  | 0, cls => local_content_type cls
  | Nat.succ fuel, cls =>
    match indexed_get_parent cls true with
    | some parent => contentTypeFuel fuel parent ++ "_" ++ local_content_type cls
    | Option.none => local_content_type cls

/-- `Indexed.indexed_get_content_type`: parent content type joined with the
local content type by `'_'`, or just the local content type at the root. -/
def indexed_get_content_type (cls : MClass) : String :=
  contentTypeFuel cls.csize cls

/-- `Indexed.indexed_get_toplevel_content_type`: the parent's full content
type when a parent exists, else the local content type. -/
def indexed_get_toplevel_content_type (cls : MClass) : String :=
  match indexed_get_parent cls true with
  | some parent => indexed_get_content_type parent
  | Option.none => local_content_type cls

/-- Modelled from the spec (§4.4 `parentIndexable`): the first direct ancestor
that implements Indexable and is itself a concrete (non-abstract)
storage-backed model.  Used to compare the spec's wording with
`indexed_get_parent`, which performs no abstractness check. -/
def parentIndexable_spec (cls : MClass) : Option MClass :=
  cls.bases.find? (fun base => base.isIndexed && base.isModel && !base.isAbstract)

/-! Concrete three-level specialization chain `clsA → clsB → clsC` of
indexed concrete models, used as the test input for the content-type
claims, plus a class whose first indexed-model base is abstract. -/

def clsA : MClass := .mk "appa" "A" [] true true false

def clsB : MClass := .mk "appb" "B" [clsA] true true false

def clsC : MClass := .mk "appc" "C" [clsB] true true false

def absBase : MClass := .mk "app" "AbsM" [] true true true

def concBase : MClass := .mk "app" "ConcM" [] true true false

def childCls : MClass := .mk "app" "Child" [absBase, concBase] true true false

/-! ## Python values, attribute access, and `get_attribute`

A Python value is `None`, a primitive, a callable, a `collections.Mapping`,
or an object with named attributes.  Reading an object attribute can itself
raise (a dangling relation raises `ObjectDoesNotExist`), so an object stores
for each attribute name the outcome of reading it. -/

inductive PyErr where
  | objectDoesNotExist
  | attributeError
  | keyError
  | fieldDoesNotExist
deriving DecidableEq

inductive PyVal where
  | none
  | str (s : String)
  | intv (n : Int)
  | callable (ret : PyVal)
  | map (entries : List (String × PyVal))
  | obj (attrs : List (String × Except PyErr PyVal))

def PyVal.isNone : PyVal → Bool
  | .none => true
  | _ => false

def PyVal.isMapping : PyVal → Bool
  | .map _ => true
  | _ => false

/-- `getattr(instance, name)`: read a named attribute; raises
`AttributeError` when absent, and propagates whatever the attribute read
itself raises. -/
def PyVal.getattr_ : PyVal → String → Except PyErr PyVal
  | .obj attrs, name =>
    match attrs.find? (fun kv => kv.fst = name) with
    | some kv => kv.snd
    | Option.none => Except.error PyErr.attributeError
  | _, _ => Except.error PyErr.attributeError

/-- `instance[name]` on a `collections.Mapping`; raises `KeyError` when the
key is absent (and `KeyError` for non-mappings, a stand-in for `TypeError`,
unreachable where it is used). -/
def PyVal.getitem : PyVal → String → Except PyErr PyVal
  | .map entries, k =>
    match entries.find? (fun kv => kv.fst = k) with
    | some kv => Except.ok kv.snd
    | Option.none => Except.error PyErr.keyError
  | _, _ => Except.error PyErr.keyError

/-- One step of `get_attribute`'s loop body inside the `try`: mappings are
subscripted, everything else goes through `getattr`. -/
def resolve_step (inst : PyVal) (attr : String) : Except PyErr PyVal :=
  if inst.isMapping then inst.getitem attr else inst.getattr_ attr

/-- `get_attribute(instance, attrs)`: walk the attribute path; break out with
`None` as soon as the current value is `None`; catch `ObjectDoesNotExist`
from a step and return `None`; propagate any other exception. -/
def get_attribute : PyVal → List String → Except PyErr PyVal
  | inst, [] => Except.ok inst
  | inst, attr :: rest =>
    if inst.isNone then Except.ok PyVal.none
    else
      match resolve_step inst attr with
      | Except.ok v => get_attribute v rest
      | Except.error PyErr.objectDoesNotExist => Except.ok PyVal.none
      | Except.error e => Except.error e

/-! ## Storage fields and model metadata

`MField` embeds a Django model field as seen by this module: its `name`,
`attname`, `get_internal_type()`, whether it is a forward relation
(`isinstance(field, RelatedField)`), and its optional
`get_searchable_content` transform.  `MModel` is a model class's `_meta`
field list; `get_field` raises `FieldDoesNotExist` for unknown names. -/

structure MField where
  name : String
  attname : String
  internal_type : String
  is_related_field : Bool
  searchable_content : Option (PyVal → PyVal)

structure MModel where
  fields : List MField

def MModel.get_field (cls : MModel) (name : String) : Except PyErr MField :=
  match cls.fields.find? (fun f => f.name = name) with
  | some f => Except.ok f
  | Option.none => Except.error PyErr.fieldDoesNotExist

/-- Django `Field.value_from_object(obj)`: read the field's `attname` off the
instance. -/
def MField.value_from_object (field : MField) (obj : PyVal) : Except PyErr PyVal :=
  obj.getattr_ field.attname

/-- `if hasattr(field, 'get_searchable_content'): value = field.get_searchable_content(value)`. -/
def applySearchable (field : MField) (v : PyVal) : PyVal :=
  match field.searchable_content with
  | some t => t v
  | Option.none => v

/-! ## Field descriptors

`BaseField.__init__` and its subclasses `SearchField` (suffix `''`) and
`FilterField` (suffix `'_filter'`); the subclass is recorded in `bkind`.
`p_match` embeds the `partial_match` flag. -/

inductive BFKind where
  | search
  | filter
deriving DecidableEq

structure BaseField where
  bkind : BFKind
  field_name : String
  source : String
  source_attrs : List String
  alias_ : String
  boost : Option Int
  p_match : Bool
  type_kwarg : Option String

/-- Helper for `pySplit`: split a character list at each separator. -/
def splitCharAux (sep : Char) : List Char → List Char → List String
  | [], cur => [String.mk cur.reverse]
  | c :: cs, cur =>
    if c = sep then String.mk cur.reverse :: splitCharAux sep cs []
    else splitCharAux sep cs (c :: cur)

/-- Python `s.split(sep)` for a single-character separator: always returns a
non-empty list, `"a.b".split('.') == ['a', 'b']`, `"t".split('.') == ['t']`. -/
def pySplit (s : String) (sep : Char) : List String :=
  splitCharAux sep s.data []

/-- `BaseField.__init__(field_name, **kwargs)`: `source` defaults to the
field name, `source_attrs = source.split('.')`, `alias = source_attrs[0]`,
and if the alias differs from the field name the two are swapped. -/
def BaseField.init (bkind : BFKind) (field_name : String) (source_kw : Option String)
    (boost : Option Int) (p_match : Bool) (type_kwarg : Option String) : BaseField :=
  let source := source_kw.getD field_name
  let source_attrs := pySplit source '.'
  let alias0 := source_attrs.headD ""
  if alias0 ≠ field_name then
    ⟨bkind, alias0, source, source_attrs, field_name, boost, p_match, type_kwarg⟩
  else
    ⟨bkind, field_name, source, source_attrs, alias0, boost, p_match, type_kwarg⟩

/-- Class attribute `suffix`: `''` on `SearchField`, `'_filter'` on
`FilterField`. -/
def BaseField.suffix (f : BaseField) : String :=
  match f.bkind with
  | .search => ""
  | .filter => "_filter"

/-- `BaseField.get_field(cls)`: `cls._meta.get_field(self.field_name)`. -/
def BaseField.get_field (f : BaseField) (cls : MModel) : Except PyErr MField :=
  cls.get_field f.field_name

/-- `BaseField.get_attname(cls)`: the storage field's `attname`, falling back
to `field_name` when the model declares no such field. -/
def BaseField.get_attname (f : BaseField) (cls : MModel) : String :=
  match f.get_field cls with
  | Except.ok field => field.attname
  | Except.error _ => f.field_name

/-- `BaseField.get_index_name(cls)`: attname when alias equals field name,
the alias otherwise; then the kind-specific suffix is appended. -/
def BaseField.get_index_name (f : BaseField) (cls : MModel) : String :=
  (if f.alias_ = f.field_name then f.get_attname cls else f.alias_) ++ f.suffix

/-- `BaseField.get_type(cls)`: the explicit `type` kwarg if present, else the
storage field's internal type, else `'CharField'`. -/
def BaseField.get_type (f : BaseField) (cls : MModel) : String :=
  match f.type_kwarg with
  | some t => t
  | Option.none =>
    match f.get_field cls with
    | Except.ok field => field.internal_type
    | Except.error _ => "CharField"

/-- `callIfCallable`: `if hasattr(value, '__call__'): value = value()`. -/
def callIfCallable : PyVal → PyVal
  | .callable ret => ret
  | v => v

/-- `BaseField.get_value(obj)`: without a declared storage field, fall back
to `getattr(obj, field_name, None)` (calling it when callable); otherwise
resolve through `get_attribute` for a multi-segment source path or through
`value_from_object` for a single segment, and finally apply the field's
`get_searchable_content` transform when it has one. -/
def BaseField.get_value (f : BaseField) (cls : MModel) (obj : PyVal) : Except PyErr PyVal :=
  match cls.get_field f.field_name with
  | Except.error _ =>
    match obj.getattr_ f.field_name with
    | Except.ok v => Except.ok (callIfCallable v)
    | Except.error PyErr.attributeError => Except.ok (callIfCallable PyVal.none)
    | Except.error e => Except.error e
  | Except.ok field =>
    match (if 1 < f.source_attrs.length then get_attribute obj f.source_attrs
           else field.value_from_object obj) with
    | Except.error e => Except.error e
    | Except.ok v => Except.ok (applySearchable field v)

/-- `RelatedFields.get_value(obj)`: `cls._meta.get_field` is NOT wrapped in a
`try`, so a missing field propagates `FieldDoesNotExist`; a forward relation
(`isinstance(field, RelatedField)`) yields `getattr(obj, field_name)`; any
other field kind falls off the method and returns `None`. -/
def relatedFields_get_value (field_name : String) (cls : MModel) (obj : PyVal) :
    Except PyErr PyVal :=
  match cls.get_field field_name with
  | Except.error e => Except.error e
  | Except.ok field =>
    if field.is_related_field then obj.getattr_ field_name
    else Except.ok PyVal.none

/-- Modelled from the spec (§4.3 `extractValue`): if the underlying storage
field is a genuine forward relation descriptor, return the related object
as-is; if the field cannot be resolved as such a relation, return absent.
Comparison definition for `relatedFields_get_value`. -/
def relatedFields_get_value_spec (field_name : String) (cls : MModel) (obj : PyVal) :
    Except PyErr PyVal :=
  match cls.get_field field_name with
  | Except.ok field =>
    if field.is_related_field then obj.getattr_ field_name
    else Except.ok PyVal.none
  | Except.error _ => Except.ok PyVal.none

/-! ## `search_fields` declarations and `get_search_fields`

The declared `search_fields` list holds `SearchField` / `FilterField` /
`RelatedFields` descriptors.  `get_search_fields` builds a Python `dict`
keyed by `(type(field), field.field_name)` and returns `list(values())`;
the dict is embedded as an ordered association list where assigning to an
existing key replaces the stored value in place (CPython insertion-order
semantics). -/

inductive SFDesc where
  | base (f : BaseField)
  | related (field_name : String) (fields : List SFDesc)

/-- The Python class of a descriptor, i.e. what `type(field)` evaluates to. -/
inductive DescKind where
  | searchFieldT
  | filterFieldT
  | relatedFieldsT
deriving DecidableEq

def SFDesc.pytype : SFDesc → DescKind
  | .base f =>
    match f.bkind with
    | .search => .searchFieldT
    | .filter => .filterFieldT
  | .related _ _ => .relatedFieldsT

def SFDesc.fname : SFDesc → String
  | .base f => f.field_name
  | .related n _ => n

/-- The dict key `(type(field), field.field_name)`. -/
def SFDesc.key (f : SFDesc) : DescKind × String := (f.pytype, f.fname)

/-- `d[k] = v` on a dict kept as an ordered association list: replace in
place when the key is present, append otherwise. -/
def dict_setitem {K V : Type} [DecidableEq K] (d : List (K × V)) (k : K) (v : V) :
    List (K × V) :=
  if k ∈ d.map Prod.fst then
    d.map (fun kv => if kv.fst = k then (k, v) else kv)
  else d ++ [(k, v)]

/-- The dict built by `get_search_fields`'s loop. -/
def dictOf (fields : List SFDesc) : List ((DescKind × String) × SFDesc) :=
  fields.foldl (fun d f => dict_setitem d f.key f) []

/-- `Indexed.get_search_fields`: deduplicate the declared descriptors by
`(type, field_name)` and return the dict's values. -/
def get_search_fields (fields : List SFDesc) : List SFDesc :=
  (dictOf fields).map Prod.snd

/-- First entry matching a key (`dict` lookup on the association list). -/
def dlookup {K V : Type} [DecidableEq K] (d : List (K × V)) (k : K) : Option (K × V) :=
  d.find? (fun kv => kv.fst = k)

/-- The last element of a list satisfying a predicate — the "later
declaration" in the deduplication invariant. -/
def lastWith {α : Type} (p : α → Bool) (l : List α) : Option α :=
  l.foldl (fun acc x => if p x then some x else acc) Option.none

/-- First occurrences of each key, in order — what the dict's key sequence
must come out as. -/
def keysDedup {K : Type} [DecidableEq K] (ks : List K) : List K :=
  ks.foldl (fun acc k => if k ∈ acc then acc else acc ++ [k]) []

/-! ## The synchronizer

`insert_or_update_object` / `remove_object` over a list of active
auto-update backends.  A backend's `add`/`delete` either succeeds or raises;
the trace records every backend call made, the successful ones, and the
`logger.exception` entries, so isolation and ordering are observable. -/

/-- The canonical indexable instance: its primary key plus the set of
primary keys currently visible in `type(instance).get_indexed_objects()`. -/
structure MInstance where
  pk : Nat
  cls_indexed_pks : List Nat
deriving DecidableEq

/-- The object a lifecycle event fires for; `resolved` is what its
`get_indexed_instance()` method returns (`None` or a canonical instance). -/
structure LifecycleInstance where
  resolved : Option MInstance

/-- A search backend with a name; `add_fails x` / `delete_fails x` say
whether `backend.add(x)` / `backend.delete(x)` raises. -/
structure Backend where
  name : String
  add_fails : MInstance → Bool
  delete_fails : MInstance → Bool

/-- `backend.add(x)` as a fallible call. -/
def backend_add (b : Backend) (x : MInstance) : Except String Unit :=
  if b.add_fails x then Except.error b.name else Except.ok ()

/-- `backend.delete(x)` as a fallible call. -/
def backend_delete (b : Backend) (x : MInstance) : Except String Unit :=
  if b.delete_fails x then Except.error b.name else Except.ok ()

/-- Trace of one synchronizer run: backend calls attempted (in order),
calls that succeeded, and logged exceptions, each as (backend name,
instance). -/
structure SyncTrace where
  calls : List (String × MInstance)
  ok_calls : List (String × MInstance)
  logged : List (String × MInstance)
deriving DecidableEq

/-- Module-level `get_indexed_instance(instance, check_exists=True)`: resolve
via the instance's own `get_indexed_instance()`; bail out on `None`; when
`check_exists`, bail out unless the pk is in the class's indexed objects. -/
def get_indexed_instance (inst : LifecycleInstance) (check_exists : Bool) : Option MInstance :=
  match inst.resolved with
  | Option.none => Option.none
  | some ii =>
    if check_exists && !(ii.cls_indexed_pks.contains ii.pk) then Option.none
    else some ii

/-- `insert_or_update_object(instance)`: resolve with the existence check,
then `backend.add` on every backend inside `try/except Exception`, logging
failures and continuing. -/
def insert_or_update_object (backends : List Backend) (inst : LifecycleInstance) : SyncTrace :=
  match get_indexed_instance inst true with
  | Option.none => ⟨[], [], []⟩
  | some ii =>
    backends.foldl (fun acc b =>
      match backend_add b ii with
      | Except.ok _ => ⟨acc.calls ++ [(b.name, ii)], acc.ok_calls ++ [(b.name, ii)], acc.logged⟩
      | Except.error _ => ⟨acc.calls ++ [(b.name, ii)], acc.ok_calls, acc.logged ++ [(b.name, ii)]⟩)
      ⟨[], [], []⟩

/-- `remove_object(instance)`: resolve with `check_exists=False`, then
`backend.delete` on every backend with the same failure isolation. -/
def remove_object (backends : List Backend) (inst : LifecycleInstance) : SyncTrace :=
  match get_indexed_instance inst false with
  | Option.none => ⟨[], [], []⟩
  | some ii =>
    backends.foldl (fun acc b =>
      match backend_delete b ii with
      | Except.ok _ => ⟨acc.calls ++ [(b.name, ii)], acc.ok_calls ++ [(b.name, ii)], acc.logged⟩
      | Except.error _ => ⟨acc.calls ++ [(b.name, ii)], acc.ok_calls, acc.logged ++ [(b.name, ii)]⟩)
      ⟨[], [], []⟩


/-! Concrete instances, models and backends used as witness inputs. -/

def wInst : MInstance := ⟨1, [1]⟩

def wLife : LifecycleInstance := ⟨some wInst⟩

def wB1 : Backend := ⟨"b1", fun _ => true, fun _ => false⟩

def wB2 : Backend := ⟨"b2", fun _ => false, fun _ => false⟩

def wInstGone : MInstance := ⟨2, []⟩

def wLifeGone : LifecycleInstance := ⟨some wInstGone⟩

def wLifeNone : LifecycleInstance := ⟨Option.none⟩

def wField : MField := ⟨"author", "author_id", "ForeignKey", true, Option.none⟩

def wPlainField : MField := ⟨"title", "title", "CharField", false, Option.none⟩

def wModel : MModel := ⟨[wField, wPlainField]⟩

def mEmpty : MModel := ⟨[]⟩

def wObj : PyVal :=
  PyVal.obj [("author", Except.ok (PyVal.obj [("name", Except.ok (PyVal.str "bob"))])),
             ("author_id", Except.ok (PyVal.intv 7)),
             ("title", Except.ok (PyVal.str "hi"))]

def wObjDangling : PyVal :=
  PyVal.obj [("rel", Except.error PyErr.objectDoesNotExist)]

/-! Concrete descriptor declarations with a duplicated `(kind, field_name)`
key, witness inputs for the deduplication claim. -/

def dupF1 : SFDesc :=
  SFDesc.base (BaseField.init BFKind.search "title" Option.none Option.none false Option.none)

def dupF2 : SFDesc :=
  SFDesc.base (BaseField.init BFKind.search "title" (some "title") (some 2) true Option.none)

def dupF3 : SFDesc :=
  SFDesc.base (BaseField.init BFKind.filter "title" Option.none Option.none false Option.none)

/-! # Theorems -/

theorem csizeList_mem_le {p : MClass} : ∀ {l : List MClass}, p ∈ l →
    MClass.csize p ≤ csizeList l := by
  intro l hm
  induction l with
  | nil => cases hm
  | cons c cs ih =>
    rcases List.mem_cons.mp hm with h | h
    · subst h
      simp [csizeList]
    · have := ih h
      simp [csizeList]
      omega

theorem bases_csize_lt (cls : MClass) : csizeList cls.bases < cls.csize := by
  cases cls
  simp [MClass.bases, MClass.csize]

theorem MClass.csize_pos (cls : MClass) : 0 < cls.csize := by
  cases cls
  simp [MClass.csize]

theorem parent_csize_lt {cls p : MClass} {rm : Bool}
    (h : indexed_get_parent cls rm = some p) : p.csize < cls.csize := by
  have hm : p ∈ cls.bases := List.mem_of_find?_eq_some h
  have h1 : MClass.csize p ≤ csizeList cls.bases := csizeList_mem_le hm
  have h2 := bases_csize_lt cls
  omega

theorem contentTypeFuel_congr : ∀ (f1 : Nat) (cls : MClass) (f2 : Nat),
    cls.csize ≤ f1 → cls.csize ≤ f2 →
    contentTypeFuel f1 cls = contentTypeFuel f2 cls := by
  intro f1
  induction f1 with
  | zero =>
    intro cls f2 h1 _
    exact absurd h1 (by have := MClass.csize_pos cls; omega)
  | succ n ih =>
    intro cls f2 h1 h2
    match f2, h2 with
    | 0, h2 => exact absurd h2 (by have := MClass.csize_pos cls; omega)
    | Nat.succ m, h2 =>
      simp only [contentTypeFuel]
      cases h : indexed_get_parent cls true with
      | none => rfl
      | some p =>
        have hp := parent_csize_lt h
        show contentTypeFuel n p ++ "_" ++ local_content_type cls =
          contentTypeFuel m p ++ "_" ++ local_content_type cls
        rw [ih p m (by omega) (by omega)]

/-- The source recursion of `indexed_get_content_type`. -/
theorem content_type_eq (cls : MClass) :
    indexed_get_content_type cls =
      match indexed_get_parent cls true with
      | some p => indexed_get_content_type p ++ "_" ++ local_content_type cls
      | Option.none => local_content_type cls := by
  unfold indexed_get_content_type
  obtain ⟨n, hn⟩ : ∃ n, cls.csize = n + 1 :=
    ⟨cls.csize - 1, by have := MClass.csize_pos cls; omega⟩
  rw [hn]
  simp only [contentTypeFuel]
  cases h : indexed_get_parent cls true with
  | none => rfl
  | some p =>
    have hp : p.csize < cls.csize := parent_csize_lt h
    show contentTypeFuel n p ++ "_" ++ local_content_type cls =
      contentTypeFuel p.csize p ++ "_" ++ local_content_type cls
    rw [contentTypeFuel_congr n p p.csize (by omega) (le_refl _)]

theorem content_type_parent {cls p : MClass}
    (h : indexed_get_parent cls true = some p) :
    indexed_get_content_type cls =
      indexed_get_content_type p ++ "_" ++ local_content_type cls := by
  rw [content_type_eq, h]

theorem content_type_root {cls : MClass}
    (h : indexed_get_parent cls true = Option.none) :
    indexed_get_content_type cls = local_content_type cls := by
  rw [content_type_eq, h]

/-! ### Synchronizer trace lemmas -/

theorem insert_foldl (ii : MInstance) :
    ∀ (backends : List Backend) (acc : SyncTrace),
    backends.foldl (fun acc b =>
      match backend_add b ii with
      | Except.ok _ => ⟨acc.calls ++ [(b.name, ii)], acc.ok_calls ++ [(b.name, ii)], acc.logged⟩
      | Except.error _ => ⟨acc.calls ++ [(b.name, ii)], acc.ok_calls, acc.logged ++ [(b.name, ii)]⟩)
      acc =
      ⟨acc.calls ++ backends.map (fun b => (b.name, ii)),
       acc.ok_calls ++ (backends.filter (fun b => !b.add_fails ii)).map (fun b => (b.name, ii)),
       acc.logged ++ (backends.filter (fun b => b.add_fails ii)).map (fun b => (b.name, ii))⟩ := by
  intro backends
  induction backends with
  | nil => intro acc; simp
  | cons b bs ih =>
    intro acc
    simp only [List.foldl_cons]
    by_cases h : b.add_fails ii
    · rw [show backend_add b ii = Except.error b.name from by simp [backend_add, h]]
      rw [ih]
      simp [h, List.filter_cons]
    · rw [show backend_add b ii = Except.ok () from by simp [backend_add, h]]
      rw [ih]
      simp [h, List.filter_cons]

theorem delete_foldl (ii : MInstance) :
    ∀ (backends : List Backend) (acc : SyncTrace),
    backends.foldl (fun acc b =>
      match backend_delete b ii with
      | Except.ok _ => ⟨acc.calls ++ [(b.name, ii)], acc.ok_calls ++ [(b.name, ii)], acc.logged⟩
      | Except.error _ => ⟨acc.calls ++ [(b.name, ii)], acc.ok_calls, acc.logged ++ [(b.name, ii)]⟩)
      acc =
      ⟨acc.calls ++ backends.map (fun b => (b.name, ii)),
       acc.ok_calls ++ (backends.filter (fun b => !b.delete_fails ii)).map (fun b => (b.name, ii)),
       acc.logged ++ (backends.filter (fun b => b.delete_fails ii)).map (fun b => (b.name, ii))⟩ := by
  intro backends
  induction backends with
  | nil => intro acc; simp
  | cons b bs ih =>
    intro acc
    simp only [List.foldl_cons]
    by_cases h : b.delete_fails ii
    · rw [show backend_delete b ii = Except.error b.name from by simp [backend_delete, h]]
      rw [ih]
      simp [h, List.filter_cons]
    · rw [show backend_delete b ii = Except.ok () from by simp [backend_delete, h]]
      rw [ih]
      simp [h, List.filter_cons]

theorem insert_or_update_trace {backends : List Backend} {inst : LifecycleInstance}
    {ii : MInstance} (h : get_indexed_instance inst true = some ii) :
    insert_or_update_object backends inst =
      ⟨backends.map (fun b => (b.name, ii)),
       (backends.filter (fun b => !b.add_fails ii)).map (fun b => (b.name, ii)),
       (backends.filter (fun b => b.add_fails ii)).map (fun b => (b.name, ii))⟩ := by
  unfold insert_or_update_object
  rw [h]
  exact (insert_foldl ii backends ⟨[], [], []⟩).trans (by simp)

theorem remove_trace {backends : List Backend} {inst : LifecycleInstance}
    {ii : MInstance} (h : get_indexed_instance inst false = some ii) :
    remove_object backends inst =
      ⟨backends.map (fun b => (b.name, ii)),
       (backends.filter (fun b => !b.delete_fails ii)).map (fun b => (b.name, ii)),
       (backends.filter (fun b => b.delete_fails ii)).map (fun b => (b.name, ii))⟩ := by
  unfold remove_object
  rw [h]
  exact (delete_foldl ii backends ⟨[], [], []⟩).trans (by simp)

/-! ### Claims about the content-type hierarchy (C1, C2) -/

/-- Claim C2: for every indexable model type, the content type of a model
with an indexable parent is the parent's content type followed by `'_'` and
its own local content type, and the content type of a parentless model is
its local content type; consequently a three-level chain `A → B → C` yields
`A.localType ++ "_" ++ B.localType ++ "_" ++ C.localType`. -/
theorem C2_content_type_recursion :
    (∀ cls p : MClass, indexed_get_parent cls true = some p →
      indexed_get_content_type cls =
        indexed_get_content_type p ++ "_" ++ local_content_type cls) ∧
    (∀ cls : MClass, indexed_get_parent cls true = Option.none →
      indexed_get_content_type cls = local_content_type cls) ∧
    (∀ A B C : MClass, indexed_get_parent A true = Option.none →
      indexed_get_parent B true = some A → indexed_get_parent C true = some B →
      indexed_get_content_type C =
        local_content_type A ++ "_" ++ local_content_type B ++ "_" ++ local_content_type C) := by
  refine ⟨fun cls p h => content_type_parent h, fun cls h => content_type_root h, ?_⟩
  intro A B C hA hB hC
  rw [content_type_parent hC, content_type_parent hB, content_type_root hA]

/-- Witness for C2 on the concrete chain `clsA → clsB → clsC`. -/
theorem C2_witness :
    indexed_get_parent clsA true = Option.none ∧
    indexed_get_parent clsB true = some clsA ∧
    indexed_get_parent clsC true = some clsB ∧
    indexed_get_content_type clsC =
      local_content_type clsA ++ "_" ++ local_content_type clsB ++ "_" ++
        local_content_type clsC := by
  exact ⟨rfl, rfl, rfl, C2_content_type_recursion.2.2 clsA clsB clsC rfl rfl rfl⟩

/-- Claim C1 is false on the code: for the three-level chain
`clsA → clsB → clsC`, `indexed_get_toplevel_content_type` on `clsC` returns
the *parent's full* content type `appa_a ++ "_" ++ appb_b`, not the root's
local content type `appa_a`. -/
theorem C1_counterexample :
    indexed_get_toplevel_content_type clsC ≠ local_content_type clsA ∧
    indexed_get_toplevel_content_type clsC =
      local_content_type clsA ++ "_" ++ local_content_type clsB := by
  have heq : indexed_get_toplevel_content_type clsC =
      local_content_type clsA ++ "_" ++ local_content_type clsB := by
    show indexed_get_content_type clsB = _
    rw [content_type_parent (show indexed_get_parent clsB true = some clsA from rfl),
      content_type_root (show indexed_get_parent clsA true = Option.none from rfl)]
  refine ⟨?_, heq⟩
  intro hbad
  have h2 : local_content_type clsA =
      local_content_type clsA ++ "_" ++ local_content_type clsB := hbad.symm.trans heq
  have h3 := congrArg String.length h2
  have h4 : ("_" : String).length = 1 := rfl
  simp only [String.length_append, h4] at h3
  omega

/-- Claim C1 (amended): `toplevelContentType` returns the parent's full
content type whenever a parent exists (and the model's own local content
type at the root); hence for a three-level chain `A → B → C` it returns
`A.localType ++ "_" ++ B.localType`, and it equals the root ancestor's local
content type only for chains of depth at most two. -/
theorem C1_toplevel_content_type (A B C : MClass)
    (hA : indexed_get_parent A true = Option.none)
    (hB : indexed_get_parent B true = some A)
    (hC : indexed_get_parent C true = some B) :
    indexed_get_toplevel_content_type C =
      local_content_type A ++ "_" ++ local_content_type B ∧
    indexed_get_toplevel_content_type B = local_content_type A ∧
    indexed_get_toplevel_content_type A = local_content_type A := by
  refine ⟨?_, ?_, ?_⟩
  · unfold indexed_get_toplevel_content_type
    rw [hC]
    show indexed_get_content_type B = _
    rw [content_type_parent hB, content_type_root hA]
  · unfold indexed_get_toplevel_content_type
    rw [hB]
    show indexed_get_content_type A = _
    rw [content_type_root hA]
  · unfold indexed_get_toplevel_content_type
    rw [hA]

/-- Witness for the amended C1 on the concrete chain `clsA → clsB → clsC`. -/
theorem C1_witness :
    indexed_get_toplevel_content_type clsC =
      local_content_type clsA ++ "_" ++ local_content_type clsB ∧
    indexed_get_toplevel_content_type clsB = local_content_type clsA := by
  have h := C1_toplevel_content_type clsA clsB clsC rfl rfl rfl
  exact ⟨h.1, h.2.1⟩

/-! ### Claims about the synchronizer (C4, C5, C10) -/

/-- Claim C4: for every backend list and resolvable instance, both
`insert_or_update_object` and `remove_object` call every backend in order
(failed calls included — a raising backend never prevents later ones), log
exactly the failing calls, and return normally (the functions are total, so
no backend exception reaches the caller). -/
theorem C4_backend_failure_isolation (backends : List Backend)
    (inst : LifecycleInstance) (ii jj : MInstance)
    (hsave : get_indexed_instance inst true = some ii)
    (hdel : get_indexed_instance inst false = some jj) :
    insert_or_update_object backends inst =
      ⟨backends.map (fun b => (b.name, ii)),
       (backends.filter (fun b => !b.add_fails ii)).map (fun b => (b.name, ii)),
       (backends.filter (fun b => b.add_fails ii)).map (fun b => (b.name, ii))⟩ ∧
    remove_object backends inst =
      ⟨backends.map (fun b => (b.name, jj)),
       (backends.filter (fun b => !b.delete_fails jj)).map (fun b => (b.name, jj)),
       (backends.filter (fun b => b.delete_fails jj)).map (fun b => (b.name, jj))⟩ :=
  ⟨insert_or_update_trace hsave, remove_trace hdel⟩





/-- Witness for C4: two backends, the first raises on `add`, the second
succeeds; the second still receives the instance and only the first is
logged. -/
theorem C4_witness :
    get_indexed_instance wLife true = some wInst ∧
    insert_or_update_object [wB1, wB2] wLife =
      ⟨[("b1", wInst), ("b2", wInst)], [("b2", wInst)], [("b1", wInst)]⟩ := by
  refine ⟨rfl, ?_⟩
  have h := (C4_backend_failure_isolation [wB1, wB2] wLife wInst wInst rfl rfl).1
  rw [h]
  rfl

/-- Claim C5: on save, after resolution the instance's pk is looked up in its
class's indexed objects and the whole operation is a no-op when absent; on
delete no existence check happens and every backend's `delete` is still
invoked for the same absent pk. -/
theorem C5_existence_check_only_on_save (backends : List Backend)
    (inst : LifecycleInstance) (ii : MInstance)
    (hres : inst.resolved = some ii)
    (habsent : ii.pk ∉ ii.cls_indexed_pks) :
    get_indexed_instance inst true = Option.none ∧
    insert_or_update_object backends inst = ⟨[], [], []⟩ ∧
    get_indexed_instance inst false = some ii ∧
    remove_object backends inst =
      ⟨backends.map (fun b => (b.name, ii)),
       (backends.filter (fun b => !b.delete_fails ii)).map (fun b => (b.name, ii)),
       (backends.filter (fun b => b.delete_fails ii)).map (fun b => (b.name, ii))⟩ := by
  have h1 : get_indexed_instance inst true = Option.none := by
    unfold get_indexed_instance
    rw [hres]
    simp [habsent]
  have h2 : get_indexed_instance inst false = some ii := by
    unfold get_indexed_instance
    rw [hres]
    simp
  refine ⟨h1, ?_, h2, remove_trace h2⟩
  unfold insert_or_update_object
  rw [h1]



/-- Witness for C5: a resolved instance whose pk is not in its class's
indexed objects; save is a no-op, delete still reaches both backends. -/
theorem C5_witness :
    wLifeGone.resolved = some wInstGone ∧
    insert_or_update_object [wB1, wB2] wLifeGone = ⟨[], [], []⟩ ∧
    remove_object [wB1, wB2] wLifeGone =
      ⟨[("b1", wInstGone), ("b2", wInstGone)],
       [("b1", wInstGone), ("b2", wInstGone)], []⟩ := by
  have h := C5_existence_check_only_on_save [wB1, wB2] wLifeGone wInstGone rfl (by simp [wInstGone])
  refine ⟨rfl, h.2.1, ?_⟩
  rw [h.2.2.2]
  rfl

/-- Claim C10: when the instance's own `get_indexed_instance()` resolves to
`None`, `remove_object` is a silent no-op (no backend `delete` at all), the
same guard `insert_or_update_object` applies on save. -/
theorem C10_remove_noop_on_unresolved (backends : List Backend)
    (inst : LifecycleInstance) (h : inst.resolved = Option.none) :
    remove_object backends inst = ⟨[], [], []⟩ ∧
    insert_or_update_object backends inst = ⟨[], [], []⟩ := by
  have h1 : get_indexed_instance inst false = Option.none := by
    unfold get_indexed_instance
    rw [h]
  have h2 : get_indexed_instance inst true = Option.none := by
    unfold get_indexed_instance
    rw [h]
  constructor
  · unfold remove_object
    rw [h1]
  · unfold insert_or_update_object
    rw [h2]


/-- Witness for C10 on an instance resolving to `None`. -/
theorem C10_witness :
    remove_object [wB1, wB2] wLifeNone = ⟨[], [], []⟩ ∧
    insert_or_update_object [wB1, wB2] wLifeNone = ⟨[], [], []⟩ :=
  C10_remove_noop_on_unresolved [wB1, wB2] wLifeNone rfl

/-! ### Claims about attribute resolution and field descriptors (C6, C7) -/

theorem get_attribute_never_dne : ∀ (attrs : List String) (inst : PyVal),
    get_attribute inst attrs ≠ Except.error PyErr.objectDoesNotExist := by
  intro attrs
  induction attrs with
  | nil => intro inst h; cases h
  | cons attr rest ih =>
    intro inst
    unfold get_attribute
    by_cases hn : inst.isNone
    · simp [hn]
    · rw [if_neg hn]
      cases hs : resolve_step inst attr with
      | ok v => exact ih v
      | error e =>
        cases e with
        | objectDoesNotExist => intro h; cases h
        | attributeError => intro h; cases h
        | keyError => intro h; cases h
        | fieldDoesNotExist => intro h; cases h

theorem get_value_delegates {f : BaseField} {cls : MModel} {field : MField}
    (hf : cls.get_field f.field_name = Except.ok field)
    (hlen : 1 < f.source_attrs.length) (obj : PyVal) :
    f.get_value cls obj = (get_attribute obj f.source_attrs).map (applySearchable field) := by
  unfold BaseField.get_value
  rw [hf]
  show (match (if 1 < f.source_attrs.length then get_attribute obj f.source_attrs
        else field.value_from_object obj) with
    | Except.error e => Except.error e
    | Except.ok v => Except.ok (applySearchable field v)) = _
  rw [if_pos hlen]
  cases h : get_attribute obj f.source_attrs with
  | ok v => rfl
  | error e => rfl

/-- Claim C6: resolution of a multi-segment attribute path short-circuits to
absent (`None`) as soon as an intermediate value is `None`, converts an
`ObjectDoesNotExist` raised by a step into absent without traversing further,
never raises `ObjectDoesNotExist` itself; a step on a mapping resolves by key
and any other step by named attribute; and `BaseField.get_value` delegates
multi-segment source paths to `get_attribute`. -/
theorem C6_resolution_absent :
    (∀ (inst : PyVal) (attr : String) (rest : List String), inst.isNone = true →
      get_attribute inst (attr :: rest) = Except.ok PyVal.none) ∧
    (∀ (inst : PyVal) (attr : String) (rest : List String), inst.isNone = false →
      resolve_step inst attr = Except.error PyErr.objectDoesNotExist →
      get_attribute inst (attr :: rest) = Except.ok PyVal.none) ∧
    (∀ (inst v : PyVal) (attr : String) (rest : List String), inst.isNone = false →
      resolve_step inst attr = Except.ok v →
      get_attribute inst (attr :: rest) = get_attribute v rest) ∧
    (∀ (inst : PyVal) (attr : String), inst.isMapping = true →
      resolve_step inst attr = inst.getitem attr) ∧
    (∀ (inst : PyVal) (attr : String), inst.isMapping = false →
      resolve_step inst attr = inst.getattr_ attr) ∧
    (∀ (attrs : List String) (inst : PyVal),
      get_attribute inst attrs ≠ Except.error PyErr.objectDoesNotExist) ∧
    (∀ (f : BaseField) (cls : MModel) (field : MField) (obj : PyVal),
      cls.get_field f.field_name = Except.ok field → 1 < f.source_attrs.length →
      f.get_value cls obj = (get_attribute obj f.source_attrs).map (applySearchable field)) := by
  refine ⟨?_, ?_, ?_, ?_, ?_, get_attribute_never_dne, ?_⟩
  · intro inst attr rest h
    unfold get_attribute
    simp [h]
  · intro inst attr rest hn hs
    unfold get_attribute
    rw [if_neg (by simp [hn]), hs]
  · intro inst v attr rest hn hs
    have hu : get_attribute inst (attr :: rest) =
        (if inst.isNone then Except.ok PyVal.none else
          match resolve_step inst attr with
          | Except.ok v => get_attribute v rest
          | Except.error PyErr.objectDoesNotExist => Except.ok PyVal.none
          | Except.error e => Except.error e) := rfl
    rw [hu, if_neg (by simp [hn]), hs]
  · intro inst attr h
    unfold resolve_step
    rw [if_pos h]
  · intro inst attr h
    unfold resolve_step
    rw [if_neg (by simp [h])]
  · intro f cls field obj hf hlen
    exact get_value_delegates hf hlen obj

/-- Witness for C6: a dangling relation (`ObjectDoesNotExist` on the first
step) and a `None` start both resolve to absent. -/
theorem C6_witness :
    get_attribute wObjDangling ["rel", "name"] = Except.ok PyVal.none ∧
    get_attribute PyVal.none ["x", "y"] = Except.ok PyVal.none := by
  constructor
  · exact C6_resolution_absent.2.1 wObjDangling "rel" ["name"] rfl rfl
  · exact C6_resolution_absent.1 PyVal.none "x" ["y"] rfl


theorem init_bkind (k : BFKind) (fname : String) (s : Option String)
    (b : Option Int) (pm : Bool) (tk : Option String) :
    (BaseField.init k fname s b pm tk).bkind = k := by
  simp only [BaseField.init]
  split <;> rfl

theorem init_swapped (k : BFKind) (fname source : String) (b : Option Int)
    (pm : Bool) (tk : Option String)
    (halias : (pySplit source '.').headD "" ≠ fname) :
    BaseField.init k fname (some source) b pm tk =
      ⟨k, (pySplit source '.').headD "", source, pySplit source '.', fname, b, pm, tk⟩ := by
  simp only [BaseField.init, Option.getD_some]
  rw [if_pos halias]

theorem init_default_source (k : BFKind) (fname : String) (b : Option Int)
    (pm : Bool) (tk : Option String)
    (halias : (pySplit fname '.').headD "" = fname) :
    BaseField.init k fname Option.none b pm tk =
      ⟨k, fname, fname, pySplit fname '.', fname, b, pm, tk⟩ := by
  simp only [BaseField.init, Option.getD_none]
  rw [if_neg (not_not_intro halias), halias]

theorem get_index_name_of_ne (f : BaseField) (cls : MModel)
    (h : f.alias_ ≠ f.field_name) : f.get_index_name cls = f.alias_ ++ f.suffix := by
  unfold BaseField.get_index_name
  rw [if_neg h]

theorem get_index_name_of_eq (f : BaseField) (cls : MModel)
    (h : f.alias_ = f.field_name) :
    f.get_index_name cls = f.get_attname cls ++ f.suffix := by
  unfold BaseField.get_index_name
  rw [if_pos h]

/-- Claim C7: when the declared source path's first segment differs from the
declared field name, construction swaps `field_name` and `alias`
(`field_name` becomes the path head, `alias` the declared name); the index
name is then `alias ++ suffix` with suffix `""` for search fields and
`"_filter"` for filter fields, while extraction still reads the original
source path; with no source kwarg (alias equals field name) the index name
is the model's storage attname plus suffix, falling back to the field name
when the model declares no such field. -/
theorem C7_alias_swap (k : BFKind) (fname source : String) (b : Option Int)
    (pm : Bool) (tk : Option String) (cls : MModel)
    (halias : (pySplit source '.').headD "" ≠ fname) :
    (BaseField.init k fname (some source) b pm tk).field_name =
      (pySplit source '.').headD "" ∧
    (BaseField.init k fname (some source) b pm tk).alias_ = fname ∧
    (BaseField.init k fname (some source) b pm tk).source_attrs = pySplit source '.' ∧
    (BaseField.init k fname (some source) b pm tk).get_index_name cls =
      fname ++ (BaseField.init k fname (some source) b pm tk).suffix ∧
    (BaseField.init BFKind.search fname (some source) b pm tk).suffix = "" ∧
    (BaseField.init BFKind.filter fname (some source) b pm tk).suffix = "_filter" ∧
    (∀ field : MField, cls.get_field ((pySplit source '.').headD "") = Except.ok field →
      1 < (pySplit source '.').length → ∀ obj : PyVal,
      (BaseField.init k fname (some source) b pm tk).get_value cls obj =
        (get_attribute obj (pySplit source '.')).map (applySearchable field)) ∧
    (∀ fn2 : String, (pySplit fn2 '.').headD "" = fn2 →
      (BaseField.init k fn2 Option.none b pm tk).get_index_name cls =
        (BaseField.init k fn2 Option.none b pm tk).get_attname cls ++
          (BaseField.init k fn2 Option.none b pm tk).suffix) ∧
    (∀ (fn2 : String) (field : MField), (pySplit fn2 '.').headD "" = fn2 →
      cls.get_field fn2 = Except.ok field →
      (BaseField.init k fn2 Option.none b pm tk).get_attname cls = field.attname) ∧
    (∀ fn2 : String, (pySplit fn2 '.').headD "" = fn2 →
      cls.get_field fn2 = Except.error PyErr.fieldDoesNotExist →
      (BaseField.init k fn2 Option.none b pm tk).get_attname cls = fn2) := by
  have hinit := init_swapped k fname source b pm tk halias
  refine ⟨by rw [hinit], by rw [hinit], by rw [hinit], ?_, ?_, ?_, ?_, ?_, ?_, ?_⟩
  · rw [hinit]
    exact get_index_name_of_ne _ cls (fun h => halias h.symm)
  · rw [init_swapped BFKind.search fname source b pm tk halias]
    rfl
  · rw [init_swapped BFKind.filter fname source b pm tk halias]
    rfl
  · intro field hfield hlen obj
    have hf : cls.get_field (BaseField.init k fname (some source) b pm tk).field_name =
        Except.ok field := by rw [hinit]; exact hfield
    have hl : 1 < (BaseField.init k fname (some source) b pm tk).source_attrs.length := by
      rw [hinit]; exact hlen
    rw [get_value_delegates hf hl obj, hinit]
  · intro fn2 hfn
    rw [init_default_source k fn2 b pm tk hfn]
    exact get_index_name_of_eq _ cls rfl
  · intro fn2 field hfn hfield
    rw [init_default_source k fn2 b pm tk hfn]
    unfold BaseField.get_attname BaseField.get_field
    rw [hfield]
  · intro fn2 hfn hfield
    rw [init_default_source k fn2 b pm tk hfn]
    unfold BaseField.get_attname BaseField.get_field
    rw [hfield]

/-- Witness for C7 at the concrete declaration
`SearchField('published', source='author.name')` against `wModel`. -/
theorem C7_witness :
    (pySplit "author.name" '.').headD "" ≠ "published" ∧
    (BaseField.init BFKind.search "published" (some "author.name") Option.none false
      Option.none).field_name = "author" ∧
    (BaseField.init BFKind.search "published" (some "author.name") Option.none false
      Option.none).alias_ = "published" ∧
    (BaseField.init BFKind.search "published" (some "author.name") Option.none false
      Option.none).get_index_name wModel = "published" ∧
    (BaseField.init BFKind.search "published" (some "author.name") Option.none false
      Option.none).get_value wModel wObj = Except.ok (PyVal.str "bob") := by
  have halias : (pySplit "author.name" '.').headD "" ≠ "published" := by decide
  have h := C7_alias_swap BFKind.search "published" "author.name" Option.none false
    Option.none wModel halias
  refine ⟨halias, ?_, h.2.1, ?_, ?_⟩
  · rw [h.1]
    rfl
  · rw [h.2.2.2.1, h.2.2.2.2.1]
    rfl
  · have h7 := h.2.2.2.2.2.2.1 wField rfl (by decide) wObj
    rw [h7]
    rfl

/-! ### Claims about parent scanning (C8) -/

theorem find?_first {α : Type} (p : α → Bool) :
    ∀ (l : List α) (a : α), l.find? p = some a →
    ∃ l1 l2, l = l1 ++ a :: l2 ∧ (∀ x ∈ l1, p x = false) ∧ p a = true := by
  intro l
  induction l with
  | nil => intro a h; cases h
  | cons x xs ih =>
    intro a h
    cases hx : p x with
    | true =>
      rw [List.find?_cons_of_pos xs hx] at h
      cases h
      refine ⟨[], xs, rfl, ?_, hx⟩
      intro y hy
      cases hy
    | false =>
      rw [List.find?_cons_of_neg xs (by simp [hx])] at h
      obtain ⟨l1, l2, heq, hall, hpa⟩ := ih a h
      refine ⟨x :: l1, l2, by rw [heq]; rfl, ?_, hpa⟩
      intro y hy
      rcases List.mem_cons.mp hy with h1 | h1
      · rw [h1]; exact hx
      · exact hall y h1

/-- Claim C8 is false on the code: `indexed_get_parent` (with its default
argument) checks only that a base implements `Indexed` and subclasses
`models.Model`; it performs no concreteness check.  For `childCls`, whose
first indexed-model base `absBase` is abstract, the code returns the
abstract base, while the spec's "first Indexable *concrete* model ancestor"
(`parentIndexable_spec`) is the later base `concBase`. -/
theorem C8_counterexample :
    (indexed_get_parent childCls true).map MClass.name = some "AbsM" ∧
    (indexed_get_parent childCls true).map MClass.isAbstract = some true ∧
    (parentIndexable_spec childCls).map MClass.name = some "ConcM" ∧
    (parentIndexable_spec childCls).map MClass.isAbstract = some false :=
  ⟨rfl, rfl, rfl, rfl⟩

/-- Claim C8 (amended): `indexed_get_parent` with its default argument scans
the direct bases in declaration order and returns the first one that
implements Indexable and is a storage-backed model — abstract or not — and
`none` when no base qualifies. -/
theorem C8_parent_scan (cls : MClass) :
    (∀ p, indexed_get_parent cls true = some p →
      p.isIndexed = true ∧ p.isModel = true ∧
      ∃ l1 l2, cls.bases = l1 ++ p :: l2 ∧
        ∀ b ∈ l1, ¬(b.isIndexed = true ∧ b.isModel = true)) ∧
    (indexed_get_parent cls true = Option.none →
      ∀ b ∈ cls.bases, ¬(b.isIndexed = true ∧ b.isModel = true)) := by
  constructor
  · intro p hp
    unfold indexed_get_parent at hp
    have hpred := List.find?_some hp
    simp only [Bool.not_true, Bool.or_false, Bool.and_eq_true] at hpred
    obtain ⟨l1, l2, heq, hall, _⟩ := find?_first _ cls.bases p hp
    refine ⟨hpred.1, hpred.2, l1, l2, heq, ?_⟩
    intro b hb hcontra
    have := hall b hb
    simp only [Bool.not_true, Bool.or_false] at this
    rw [hcontra.1, hcontra.2] at this
    cases this
  · intro h b hb hcontra
    unfold indexed_get_parent at h
    have := List.find?_eq_none.mp h b hb
    simp only [Bool.not_true, Bool.or_false] at this
    rw [hcontra.1, hcontra.2] at this
    simp at this

/-- Witness for the amended C8 at `childCls`: the returned parent is the
first indexed-model base `absBase` (which is abstract). -/
theorem C8_witness :
    indexed_get_parent childCls true = some absBase ∧
    absBase.isIndexed = true ∧ absBase.isModel = true := by
  have h := (C8_parent_scan childCls).1 absBase rfl
  exact ⟨rfl, h.1, h.2.1⟩

/-! ### Claims about RelatedFields.get_value (C9) -/

/-- Claim C9 is false on the code: `RelatedFields.get_value` does not guard
`cls._meta.get_field`, so for a field name the model does not declare it
raises `FieldDoesNotExist` instead of returning absent (`None`) as the spec
requires for any field that "cannot be resolved as such a relation". -/
theorem C9_counterexample :
    relatedFields_get_value "author" mEmpty (PyVal.obj []) =
      Except.error PyErr.fieldDoesNotExist ∧
    relatedFields_get_value_spec "author" mEmpty (PyVal.obj []) =
      Except.ok PyVal.none :=
  ⟨rfl, rfl⟩

/-- Claim C9 (amended): when the model declares the field,
`RelatedFields.get_value` returns the related object as-is if the field is a
genuine forward relation descriptor and absent (`None`) otherwise; when the
model declares no such field, the `FieldDoesNotExist` error propagates to
the caller instead of an absent result. -/
theorem C9_related_get_value (field_name : String) (cls : MModel) (obj : PyVal) :
    (∀ field : MField, cls.get_field field_name = Except.ok field →
      relatedFields_get_value field_name cls obj =
        (if field.is_related_field then obj.getattr_ field_name
         else Except.ok PyVal.none)) ∧
    (cls.get_field field_name = Except.error PyErr.fieldDoesNotExist →
      relatedFields_get_value field_name cls obj =
        Except.error PyErr.fieldDoesNotExist) := by
  constructor
  · intro field h
    unfold relatedFields_get_value
    rw [h]
  · intro h
    unfold relatedFields_get_value
    rw [h]

/-- Witness for the amended C9: a forward relation is returned as-is, a
plain field yields absent. -/
theorem C9_witness :
    relatedFields_get_value "author" wModel wObj = wObj.getattr_ "author" ∧
    relatedFields_get_value "title" wModel wObj = Except.ok PyVal.none := by
  have h1 := (C9_related_get_value "author" wModel wObj).1 wField rfl
  have h2 := (C9_related_get_value "title" wModel wObj).1 wPlainField rfl
  constructor
  · rw [h1]
    rfl
  · rw [h2]
    rfl

/-! ### Claim about search-field deduplication (C3) -/

theorem dict_setitem_keys {K V : Type} [DecidableEq K] (d : List (K × V)) (k : K) (v : V) :
    (dict_setitem d k v).map Prod.fst =
      if k ∈ d.map Prod.fst then d.map Prod.fst else (d.map Prod.fst) ++ [k] := by
  unfold dict_setitem
  by_cases h : k ∈ d.map Prod.fst
  · rw [if_pos h, if_pos h, List.map_map]
    refine List.map_congr_left ?_
    intro kv _
    by_cases hk : kv.fst = k
    · simp [Function.comp, hk]
    · simp [Function.comp, hk]
  · rw [if_neg h, if_neg h]
    simp

theorem find?_update {K V : Type} [DecidableEq K] (k k' : K) (v : V) :
    ∀ d : List (K × V),
    (d.map (fun kv => if kv.fst = k then (k, v) else kv)).find? (fun kv => kv.fst = k') =
      if k' = k then (d.find? (fun kv => kv.fst = k)).map (fun _ => (k, v))
      else d.find? (fun kv => kv.fst = k') := by
  intro d
  induction d with
  | nil => by_cases h : k' = k <;> simp [h]
  | cons kv rest ih =>
    rw [List.map_cons]
    by_cases h1 : kv.fst = k
    · rw [if_pos h1]
      by_cases h2 : k' = k
      · subst h2
        rw [if_pos rfl]
        rw [List.find?_cons_of_pos _ (by simp)]
        rw [List.find?_cons_of_pos rest (by simp [h1])]
        rfl
      · rw [if_neg h2]
        rw [List.find?_cons_of_neg _ (by simp [Ne.symm h2])]
        rw [List.find?_cons_of_neg rest (by simp [h1, Ne.symm h2])]
        rw [ih, if_neg h2]
    · rw [if_neg h1]
      by_cases h2 : k' = k
      · subst h2
        rw [if_pos rfl]
        rw [List.find?_cons_of_neg _ (by simp [h1])]
        rw [List.find?_cons_of_neg rest (by simp [h1])]
        rw [ih, if_pos rfl]
      · rw [if_neg h2]
        by_cases h3 : kv.fst = k'
        · rw [List.find?_cons_of_pos _ (by simp [h3])]
          rw [List.find?_cons_of_pos rest (by simp [h3])]
        · rw [List.find?_cons_of_neg _ (by simp [h3])]
          rw [List.find?_cons_of_neg rest (by simp [h3])]
          rw [ih, if_neg h2]

theorem dlookup_setitem {K V : Type} [DecidableEq K] (d : List (K × V)) (k k' : K) (v : V) :
    dlookup (dict_setitem d k v) k' =
      if k' = k then some (k, v) else dlookup d k' := by
  unfold dict_setitem dlookup
  by_cases hmem : k ∈ d.map Prod.fst
  · rw [if_pos hmem, find?_update]
    by_cases h2 : k' = k
    · rw [if_pos h2, if_pos h2]
      obtain ⟨kv, hkv, hfst⟩ := List.mem_map.mp hmem
      cases hf : d.find? (fun kv => kv.fst = k) with
      | none =>
        rw [List.find?_eq_none] at hf
        exact absurd (by simp [hfst]) (hf kv hkv)
      | some w => rfl
    · rw [if_neg h2, if_neg h2]
  · rw [if_neg hmem, List.find?_append]
    by_cases h2 : k' = k
    · subst h2
      have hnone : d.find? (fun kv => kv.fst = k') = Option.none := by
        rw [List.find?_eq_none]
        intro x hx
        simp only [decide_eq_true_eq]
        intro hcontra
        exact hmem (List.mem_map.mpr ⟨x, hx, hcontra⟩)
      rw [hnone, if_pos rfl]
      simp
    · rw [if_neg h2]
      have hone : ([(k, v)] : List (K × V)).find? (fun kv => kv.fst = k') = Option.none := by
        rw [List.find?_eq_none]
        intro x hx
        simp only [List.mem_singleton] at hx
        subst hx
        simp [Ne.symm h2]
      rw [hone]
      cases d.find? (fun kv => kv.fst = k') <;> rfl

theorem dictOf_concat (l : List SFDesc) (f : SFDesc) :
    dictOf (l ++ [f]) = dict_setitem (dictOf l) f.key f := by
  unfold dictOf
  rw [List.foldl_append]
  rfl

theorem lastWith_concat {α : Type} (p : α → Bool) (l : List α) (x : α) :
    lastWith p (l ++ [x]) = if p x then some x else lastWith p l := by
  unfold lastWith
  rw [List.foldl_append]
  rfl

theorem keysDedup_concat {K : Type} [DecidableEq K] (ks : List K) (k : K) :
    keysDedup (ks ++ [k]) =
      if k ∈ keysDedup ks then keysDedup ks else keysDedup ks ++ [k] := by
  unfold keysDedup
  rw [List.foldl_append]
  rfl

theorem dlookup_dictOf (fields : List SFDesc) (k : DescKind × String) :
    dlookup (dictOf fields) k =
      (lastWith (fun f => f.key = k) fields).map (fun f => (k, f)) := by
  induction fields using List.reverseRecOn with
  | nil => rfl
  | append_singleton l f ih =>
    rw [dictOf_concat, dlookup_setitem, lastWith_concat]
    by_cases h : k = f.key
    · rw [if_pos h, if_pos (by simp [h])]
      simp [h]
    · rw [if_neg h, if_neg (by simp [Ne.symm h]), ih]

theorem dictOf_entry_key : ∀ fields : List SFDesc, ∀ kv ∈ dictOf fields,
    kv.fst = kv.snd.key := by
  intro fields
  induction fields using List.reverseRecOn with
  | nil => intro kv hkv; cases hkv
  | append_singleton l f ih =>
    intro kv hkv
    rw [dictOf_concat] at hkv
    unfold dict_setitem at hkv
    by_cases hmem : f.key ∈ (dictOf l).map Prod.fst
    · rw [if_pos hmem] at hkv
      obtain ⟨kv0, hkv0, heq⟩ := List.mem_map.mp hkv
      by_cases h0 : kv0.fst = f.key
      · rw [if_pos h0] at heq
        rw [← heq]
      · rw [if_neg h0] at heq
        rw [← heq]
        exact ih kv0 hkv0
    · rw [if_neg hmem] at hkv
      rcases List.mem_append.mp hkv with h | h
      · exact ih kv h
      · simp only [List.mem_singleton] at h
        rw [h]

theorem dictOf_keys : ∀ fields : List SFDesc,
    (dictOf fields).map Prod.fst = keysDedup (fields.map SFDesc.key) := by
  intro fields
  induction fields using List.reverseRecOn with
  | nil => rfl
  | append_singleton l f ih =>
    have hmap : (l ++ [f]).map SFDesc.key = l.map SFDesc.key ++ [f.key] := by simp
    rw [dictOf_concat, dict_setitem_keys, hmap, keysDedup_concat, ih]

theorem keysDedup_mem {K : Type} [DecidableEq K] (ks : List K) (k : K) :
    k ∈ keysDedup ks ↔ k ∈ ks := by
  induction ks using List.reverseRecOn with
  | nil => exact Iff.rfl
  | append_singleton l x ih =>
    rw [keysDedup_concat]
    by_cases h : x ∈ keysDedup l
    · rw [if_pos h, ih]
      constructor
      · intro hk
        exact List.mem_append.mpr (Or.inl hk)
      · intro hk
        rcases List.mem_append.mp hk with h1 | h1
        · exact h1
        · simp only [List.mem_singleton] at h1
          subst h1
          exact ih.mp h
    · rw [if_neg h]
      simp [ih]

theorem keysDedup_nodup {K : Type} [DecidableEq K] (ks : List K) :
    (keysDedup ks).Nodup := by
  induction ks using List.reverseRecOn with
  | nil => exact List.nodup_nil
  | append_singleton l x ih =>
    rw [keysDedup_concat]
    by_cases h : x ∈ keysDedup l
    · rw [if_pos h]
      exact ih
    · rw [if_neg h]
      rw [List.nodup_append]
      refine ⟨ih, List.nodup_singleton x, ?_⟩
      intro a ha hb
      simp only [List.mem_singleton] at hb
      subst hb
      exact h ha

theorem dlookup_of_mem {K V : Type} [DecidableEq K] :
    ∀ d : List (K × V), (d.map Prod.fst).Nodup → ∀ kv ∈ d, dlookup d kv.fst = some kv := by
  intro d
  induction d with
  | nil => intro _ kv hkv; cases hkv
  | cons x xs ih =>
    intro hnodup kv hkv
    rw [List.map_cons, List.nodup_cons] at hnodup
    rcases List.mem_cons.mp hkv with h | h
    · subst h
      unfold dlookup
      rw [List.find?_cons_of_pos xs (by simp)]
    · have hx : x.fst ≠ kv.fst := by
        intro hcontra
        refine hnodup.1 ?_
        rw [hcontra]
        exact List.mem_map.mpr ⟨kv, h, rfl⟩
      unfold dlookup
      rw [List.find?_cons_of_neg xs (by simp [hx])]
      exact ih hnodup.2 kv h

theorem filter_key_length_le_one {α K : Type} [DecidableEq K] (key : α → K) :
    ∀ l : List α, (l.map key).Nodup →
    ∀ k, (l.filter (fun x => key x = k)).length ≤ 1 := by
  intro l
  induction l with
  | nil => intro _ k; simp
  | cons x xs ih =>
    intro hnodup k
    rw [List.map_cons, List.nodup_cons] at hnodup
    rw [List.filter_cons]
    by_cases h : key x = k
    · rw [if_pos (by simp [h])]
      have hnil : xs.filter (fun y => key y = k) = [] := by
        rw [List.filter_eq_nil_iff]
        intro a ha
        simp only [decide_eq_true_eq]
        intro hcontra
        refine hnodup.1 ?_
        rw [show key x = key a from h.trans hcontra.symm]
        exact List.mem_map.mpr ⟨a, ha, rfl⟩
      rw [hnil]
      simp
    · rw [if_neg (by simp [h])]
      exact ih hnodup.2 k

/-- Claim C3: `get_search_fields` returns at most one descriptor per distinct
`(type, field_name)` key; every returned descriptor is the *last* declaration
with its key; the returned key sequence is the input's key sequence with
duplicates dropped at the first occurrence (insertion order preserved for
first-seen keys); and a key appears in the result exactly when it was
declared. -/
theorem C3_get_search_fields_dedup (fields : List SFDesc) (k : DescKind × String) :
    ((get_search_fields fields).filter (fun f => f.key = k)).length ≤ 1 ∧
    (∀ f ∈ get_search_fields fields,
      lastWith (fun g => g.key = f.key) fields = some f) ∧
    (get_search_fields fields).map SFDesc.key = keysDedup (fields.map SFDesc.key) ∧
    (∀ k2 : DescKind × String,
      k2 ∈ (get_search_fields fields).map SFDesc.key ↔ k2 ∈ fields.map SFDesc.key) := by
  have hkeys : (get_search_fields fields).map SFDesc.key = (dictOf fields).map Prod.fst := by
    unfold get_search_fields
    rw [List.map_map]
    refine List.map_congr_left ?_
    intro kv hkv
    exact (dictOf_entry_key fields kv hkv).symm
  have hc : (get_search_fields fields).map SFDesc.key =
      keysDedup (fields.map SFDesc.key) := hkeys.trans (dictOf_keys fields)
  refine ⟨?_, ?_, hc, ?_⟩
  · refine filter_key_length_le_one SFDesc.key (get_search_fields fields) ?_ k
    rw [hc]
    exact keysDedup_nodup _
  · intro f hf
    obtain ⟨kv, hkv, hsnd⟩ := List.mem_map.mp hf
    have hfst : kv.fst = f.key := by
      rw [dictOf_entry_key fields kv hkv, hsnd]
    have hnodup : ((dictOf fields).map Prod.fst).Nodup := by
      rw [dictOf_keys]
      exact keysDedup_nodup _
    have hlook := dlookup_of_mem (dictOf fields) hnodup kv hkv
    rw [dlookup_dictOf] at hlook
    cases hlw : lastWith (fun g => g.key = kv.fst) fields with
    | none =>
      rw [hlw] at hlook
      cases hlook
    | some w =>
      rw [hlw] at hlook
      simp only [Option.map_some'] at hlook
      have h2 : (kv.fst, w) = kv := by
        injection hlook
      have hw : w = f := by
        rw [← hsnd, ← h2]
      rw [← hfst, hlw, hw]
  · intro k2
    rw [hc, keysDedup_mem]

/-- Witness for C3: `[dupF1, dupF3, dupF2]` declares the search-field key
`(SearchField, "title")` twice (`dupF1`, then `dupF2` with different boost);
the result keeps exactly one entry for that key — the later declaration —
at the first occurrence's position, before the filter field `dupF3`. -/
theorem C3_witness :
    get_search_fields [dupF1, dupF3, dupF2] = [dupF2, dupF3] ∧
    ((get_search_fields [dupF1, dupF3, dupF2]).filter
      (fun f => f.key = (DescKind.searchFieldT, "title"))).length ≤ 1 ∧
    lastWith (fun g => g.key = dupF2.key) [dupF1, dupF3, dupF2] = some dupF2 := by
  have hval : get_search_fields [dupF1, dupF3, dupF2] = [dupF2, dupF3] := rfl
  have h := C3_get_search_fields_dedup [dupF1, dupF3, dupF2]
    (DescKind.searchFieldT, "title")
  refine ⟨hval, h.1, ?_⟩
  exact h.2.1 dupF2 (by rw [hval]; exact List.mem_cons_self _ _)
